import Mathlib

/-!
Verification of the cache_algos repository: shallow embedding of the four
cache engines (SIEVE, LRU-K, 2Q, O(1)-LFU) and proofs about the claims of
the specification.  Engines are embedded as pure state-transition functions;
Go maps become association lists with unique keys, Go `panic` (including a
nil-pointer dereference at runtime) becomes an `Option`-valued result of
`none`, and intrusive doubly-linked lists become Lean lists ordered from the
node after HEAD to the node before TAIL.
-/

/-- Association-list lookup, mirroring a Go map read (`m[k]`). -/
def assocLookup {α : Type} (l : List (String × α)) (k : String) : Option α :=
  match l with
  | [] => none
  | (k1, v) :: rest => if k1 = k then some v else assocLookup rest k

/-- Association-list update, mirroring a Go map assignment (`m[k] = v`):
replaces the binding when the key is present, otherwise adds one. -/
def assocSet {α : Type} (l : List (String × α)) (k : String) (v : α) : List (String × α) :=
  match l with
  | [] => [(k, v)]
  | (k1, v1) :: rest => if k1 = k then (k1, v) :: rest else (k1, v1) :: assocSet rest k v

/-- Association-list removal, mirroring Go `delete(m, k)` (a no-op when the
key is absent).  Keys are unique in every map the engines build, so removing
all bindings of `k` coincides with removing the unique one. -/
def assocRemove {α : Type} (l : List (String × α)) (k : String) : List (String × α) :=
  match l with
  | [] => []
  | (k1, v1) :: rest => if k1 = k then assocRemove rest k else (k1, v1) :: assocRemove rest k

/-- Key-set update mirroring a Go map used as a set (`m[k] = node`). -/
def keysAdd (l : List String) (k : String) : List String :=
  if l.contains k then l else k :: l

/-- Key-set removal mirroring Go `delete(m, k)` on a map used as a set. -/
def keysRemove (l : List String) (k : String) : List String :=
  match l with
  | [] => []
  | x :: rest => if x = k then keysRemove rest k else x :: keysRemove rest k

/-! ## SIEVE (src/sieve/sieve_go/sieve.go)

A node of the intrusive list.  `nid` stands for the node's identity (the Go
pointer); the two sentinels HEAD and TAIL are implicit: `listNodes` holds the
live nodes in order from `HEAD.next` (most recently inserted) to `TAIL.prev`
(oldest). -/

structure SNode where
  nid : Nat
  key : String
  visited : Bool
  value : Nat
deriving DecidableEq

/-- The stored `hand` pointer of `Sieve`: Go `nil`, the HEAD sentinel, or a
node (by identity). -/
inductive HandPtr where
  | hnil
  | hhead
  | hnode (nid : Nat)
deriving DecidableEq

structure SieveState where
  capacity : Nat
  listNodes : List SNode
  index : List (String × Nat)
  hand : HandPtr
  nextId : Nat
deriving DecidableEq

/-- `NewSieve` (the constructor panics on non-positive capacity; all states
built here use a positive one). -/
def newSieve (cap : Nat) : SieveState :=
  { capacity := cap, listNodes := [], index := [], hand := .hnil, nextId := 0 }

/-- `Sieve.Get`: on a hit, set the indexed node's visited bit and return
true; on a miss return false, leaving the state unchanged. -/
def sieveGet (s : SieveState) (k : String) : SieveState × Bool :=
  match assocLookup s.index k with
  | none => (s, false)
  | some nid =>
      ({ s with listNodes :=
          s.listNodes.map (fun n => if n.nid = nid then { n with visited := true } else n) },
        true)

/-- Clear a node's visited bit (the sweep's `hand.visited = false`). -/
def clearNode (n : SNode) : SNode := { n with visited := false }

/-- One contiguous stretch of the eviction sweep, on nodes listed in walk
order (from the first candidate toward HEAD): clear the visited bit of each
visited node passed, stop at the first unvisited node (the victim).  `none`
means every node of the stretch was visited and the hand walked past it. -/
def sweepSeg : List SNode → Option (List SNode × SNode × List SNode)
  | [] => none
  | n :: rest =>
    if n.visited then
      match sweepSeg rest with
      | none => none
      | some (c, v, r) => some (clearNode n :: c, v, r)
    else some ([], n, rest)

/-- Position (in `listNodes`) of the first node the sweep examines, i.e. of
`hand.prev` after `Insert` replaces a nil or HEAD hand by TAIL.  `none`
captures the nil-pointer dereference the Go code runs into when that
predecessor is the HEAD sentinel (empty list, or stored hand at the front),
and a dangling stored hand. -/
def handStartPos (s : SieveState) : Option Nat :=
  match s.hand with
  | .hnil => if s.listNodes.length = 0 then none else some (s.listNodes.length - 1)
  | .hhead => if s.listNodes.length = 0 then none else some (s.listNodes.length - 1)
  | .hnode h =>
    match s.listNodes.findIdx? (fun n => n.nid = h) with
    | none => none
    | some 0 => none
    | some (q + 1) => some q

/-- New stored hand after an eviction: `victim.prev`, where `r` lists the
nodes between the victim and HEAD in walk order. -/
def newHand (r : List SNode) : HandPtr :=
  match r with
  | [] => .hhead
  | n :: _ => .hnode n.nid

/-- The eviction sweep of `Sieve.Insert`: walk from the hand toward HEAD,
clearing visited bits, wrapping once from HEAD back to `TAIL.prev`; unlink
the first unvisited node and delete its key from the index.  Returns the new
state together with the victim node; `none` models the nil-pointer panics of
the Go code. -/
def sieveEvictV (s : SieveState) : Option (SieveState × SNode) :=
  match handStartPos s with
  | none => none
  | some j =>
    match sweepSeg (s.listNodes.take (j + 1)).reverse with
    | some (c, v, r) =>
      some ({ s with
          listNodes := r.reverse ++ c.reverse ++ s.listNodes.drop (j + 1),
          index := assocRemove s.index v.key,
          hand := newHand r }, v)
    | none =>
      match sweepSeg ((s.listNodes.take (j + 1)).map clearNode
          ++ s.listNodes.drop (j + 1)).reverse with
      | some (c, v, r) =>
        some ({ s with
            listNodes := r.reverse ++ c.reverse,
            index := assocRemove s.index v.key,
            hand := newHand r }, v)
      | none => none

/-- `Sieve.Insert`: evict when the index is exactly full, then link a fresh
unvisited node right after HEAD and point the index entry of `k` at it. -/
def sieveInsert (s : SieveState) (k : String) (v : Nat) : Option SieveState :=
  let afterEvict : Option SieveState :=
    if s.index.length = s.capacity then (sieveEvictV s).map Prod.fst else some s
  afterEvict.map fun s1 =>
    { s1 with
      listNodes := ⟨s1.nextId, k, false, v⟩ :: s1.listNodes,
      index := assocSet s1.index k s1.nextId,
      nextId := s1.nextId + 1 }

/-! ## LRU-K (src/unnamed/part_001) -/

structure LruKState where
  K : Nat
  CRP : Int
  RIP : Int
  Cap : Nat
  buffer : List (String × Nat)
  hist : List (String × List Int)
  last : List (String × Int)
deriving DecidableEq

/-- `History.get` (panics when the key is absent or the index is out of
range, hence the `Option`). -/
def histGet (s : LruKState) (k : String) (i : Nat) : Option Int :=
  (assocLookup s.hist k).bind (fun h => h.get? i)

def newLruK (k : Nat) (cap : Nat) (crp : Int) : LruKState :=
  { K := k, CRP := crp, RIP := 0, Cap := cap, buffer := [], hist := [], last := [] }

/-- The loop of `FindVictim`, iterating the buffer in the (nondeterministic)
Go map order given by `order`, carrying the current `victim` and `min`
(initially the zero key and `t`). -/
def findVictimLoop (s : LruKState) (t : Int) :
    List String → String → Int → Option (String × Int)
  | [], v, m => some (v, m)
  | p :: rest, v, m =>
    match assocLookup s.last p with
    | none => none
    | some tl =>
      if s.CRP < t - tl then
        match histGet s p (s.K - 1) with
        | none => none
        | some h => if h < m then findVictimLoop s t rest p h else findVictimLoop s t rest v m
      else findVictimLoop s t rest v m

/-- `FindVictim`. -/
def findVictim (s : LruKState) (t : Int) (order : List String) : Option String :=
  (findVictimLoop s t order "" t).map Prod.fst

/-- The sequential history-update loop of `Set`
(`for i := 1; i < K; i++ { HIST[i] = HIST[i-1] + correl }`): iteration `i`
reads index `i-1` as already rewritten by iteration `i-1`.  Called with
`i = 1` and `fuel = K - 1`. -/
def seqAddO (correl : Int) : Nat → Nat → List Int → Option (List Int)
  | _, 0, h => some h
  | i, fuel + 1, h =>
    match h.get? (i - 1) with
    | none => none
    | some prev => seqAddO correl (i + 1) fuel (h.set i (prev + correl))

/-- `LRU_K.Set` at time `t`; `order` is the buffer iteration order used by
`FindVictim` when the buffer is full. -/
def lruSet (s : LruKState) (key : String) (data : Nat) (t : Int) (order : List String) :
    Option LruKState :=
  match assocLookup s.buffer key with
  | some _ =>
    match assocLookup s.last key with
    | none => none
    | some tl =>
      if s.CRP < t - tl then
        match histGet s key 0 with
        | none => none
        | some h0 =>
          match assocLookup s.hist key with
          | none => none
          | some h =>
            match seqAddO (tl - h0) 1 (s.K - 1) h with
            | none => none
            | some h1 =>
              some { s with
                hist := assocSet s.hist key (h1.set 0 t),
                last := assocSet s.last key t,
                buffer := assocSet s.buffer key data }
      else
        some { s with
          last := assocSet s.last key t,
          buffer := assocSet s.buffer key data }
  | none =>
    if s.buffer.length < s.Cap then
      some { s with
        buffer := assocSet s.buffer key data,
        last := assocSet s.last key t,
        hist := assocSet s.hist key ((List.replicate s.K (0 : Int)).set 0 t) }
    else
      match findVictim s t order with
      | none => none
      | some victim =>
        let s1 := { s with
          buffer := assocSet (assocRemove s.buffer victim) key data,
          last := assocRemove s.last victim }
        match assocLookup s1.hist key with
        | none =>
          some { s1 with
            hist := assocSet s1.hist key ((List.replicate s1.K (0 : Int)).set 0 t),
            last := assocSet s1.last key t }
        | some h =>
          match seqAddO 0 1 (s1.K - 1) h with
          | none => none
          | some h1 =>
            some { s1 with
              hist := assocSet s1.hist key (h1.set 0 t),
              last := assocSet s1.last key t }

/-- `LRU_K.Cleanup`: delete the buffer entry, HIST and LAST of a key. -/
def lruCleanup (s : LruKState) (key : String) : LruKState :=
  { s with
    buffer := assocRemove s.buffer key,
    hist := assocRemove s.hist key,
    last := assocRemove s.last key }

/-- One pass of the `StartCleanup` sweeper over the resident keys listed in
`order`: for each, read `HIST.get(page, K-1)` (the code's
`backward_K_Distance`) and run `Cleanup` when it exceeds RIP.  The spawned
`Cleanup` goroutines delete disjoint keys, so the pass is modelled
sequentially. -/
def cleanupPass (s : LruKState) : List String → Option LruKState
  | [] => some s
  | p :: rest =>
    match histGet s p (s.K - 1) with
    | none => none
    | some bkd => cleanupPass (if s.RIP < bkd then lruCleanup s p else s) rest

/-! ## 2Q (src/unnamed/part_003, package qgo)

`FIFO` and `LRU` each hold an intrusive list plus a `Nodes` map; the list is
modelled by `order` (from `Head.next`, the MRU end, to `Tail.prev`, the LRU
end) and the map by the key set `nodes`. -/

structure QueueLst where
  order : List String
  nodes : List String
deriving DecidableEq

def emptyQueue : QueueLst := { order := [], nodes := [] }

/-- `FIFO.add` / `LRU.add`: link a node right after HEAD and record it. -/
def queueAdd (q : QueueLst) (k : String) : QueueLst :=
  { order := k :: q.order, nodes := keysAdd q.nodes k }

/-- `FIFO.evict` / `LRU.evict`: unlink `Tail.prev` and delete its key from
the map, but return the ZERO key (the Go code returns `defaultValue`, not
the evicted key).  `none` models the `(_, false)` empty-queue result. -/
def queueEvict (q : QueueLst) : Option (String × QueueLst) :=
  match q.order.getLast? with
  | none => none
  | some k => some ("", { order := q.order.dropLast, nodes := keysRemove q.nodes k })

/-- `LRU.access`: move the node of `k` to the front.  (The Go code relinks
only the `next` chain; the resulting half-broken `prev` chain is never
traversed before the node moves again, so the move-to-front abstraction is
sound.)  A missing key would dereference a nil node and panic. -/
def queueAccess (q : QueueLst) (k : String) : Option QueueLst :=
  if q.nodes.contains k then
    some { q with order := k :: q.order.filter (fun x => !(x == k)) }
  else none

structure Page where
  data : Nat
  queueType : String
deriving DecidableEq

structure TwoQState where
  kIn : Nat
  kOut : Nat
  pageBuffer : List (String × Page)
  capacity : Nat
  a1in : QueueLst
  am : QueueLst
  a1out : QueueLst
deriving DecidableEq

/-- A 2Q cache as the tests construct it: `NewTwoQ(capacity)` followed by
assigning `K_In`, `K_Out` and making the four maps. -/
def newTwoQ (cap kin kout : Nat) : TwoQState :=
  { kIn := kin, kOut := kout, pageBuffer := [], capacity := cap,
    a1in := emptyQueue, am := emptyQueue, a1out := emptyQueue }

/-- `TwoQ.reclaimFor`.  Because `evict` returns the zero key, the page
buffer deletion and the ghost insertion act on `""` rather than on the key
actually unlinked.  `none` models the `panic("why cant we evict")` paths. -/
def reclaimFor (s : TwoQState) : Option TwoQState :=
  if s.pageBuffer.length < s.capacity then some s
  else if s.kIn ≤ s.a1in.nodes.length then
    match queueEvict s.a1in with
    | none => none
    | some (k0, a1in1) =>
      let s1 := { s with
        a1in := a1in1,
        pageBuffer := assocRemove s.pageBuffer k0,
        a1out := queueAdd s.a1out k0 }
      if s1.kOut ≤ s1.a1out.nodes.length then
        match queueEvict s1.a1out with
        | none => none
        | some (_, a1out1) => some { s1 with a1out := a1out1 }
      else some s1
  else
    match queueEvict s.am with
    | none => none
    | some (k0, am1) =>
      some { s with am := am1, pageBuffer := assocRemove s.pageBuffer k0 }

/-- `TwoQ.Insert`.  On a miss (`key` not in the page buffer) the Go code
reclaims, installs the new page, and then executes `return page.data, false`
where `page` is the nil pointer obtained from the failed map lookup: every
miss dereferences nil and panics, which `none` models.  In particular the
ghost-promotion branch below is only reachable for keys that are resident
AND in `A1out`. -/
def twoQInsert (s : TwoQState) (key : String) (value : Nat) :
    Option (TwoQState × Nat × Bool) :=
  match assocLookup s.pageBuffer key with
  | none => none
  | some page =>
    if page.queueType = "A1_In" then some (s, page.data, true)
    else
      let s1opt : Option TwoQState :=
        if page.queueType = "A_M" then
          (queueAccess s.am key).map (fun am1 => { s with am := am1 })
        else some s
      s1opt.bind fun s1 =>
        if s1.a1out.nodes.contains key then
          (reclaimFor s1).map fun s2 =>
            ({ s2 with
                am := queueAdd s2.am key,
                pageBuffer := assocSet s2.pageBuffer key ⟨value, "A_M"⟩ },
              page.data, true)
        else some (s1, page.data, true)

/-! ## O(1)-LFU (src/unnamed/part_003, package lfuo1)

The frequency-bucket list after the `freq_Head` sentinel is a Lean list; an
empty list is the Go `freq_Head.next == nil`.  `GetNewNode(v, prev, nil)`
and `DeleteNode(node)` with `node.next == nil` both write through a nil
pointer and panic; `none` models this. -/

structure FreqBucket where
  value : Nat
  items : List (String × Nat)
deriving DecidableEq

structure LfuState where
  size : Nat
  bykey : List (String × Nat)
  buckets : List FreqBucket
deriving DecidableEq

/-- `NewLfuCache` followed by the caller assigning `size`. -/
def newLfu (size : Nat) : LfuState :=
  { size := size, bykey := [], buckets := [] }

/-- `LFU_Cache.Evict`: take an item of the first (minimum-frequency) bucket
— the Go map range order is arbitrary, modelled by the first list entry —
remove it from that bucket and from `bykey`, and unlink the bucket if it
emptied.  Panics (`none`) on an empty cache, and also when unlinking the
only bucket (`DeleteNode` writes `nil.prev`).  An empty first bucket makes
the range loop run zero times and returns the zero key with a nil value. -/
def lfuEvict (s : LfuState) : Option (LfuState × String × Option Nat) :=
  if s.bykey.length = 0 then none
  else
    match s.buckets with
    | [] => none
    | b :: rest =>
      match b.items with
      | [] => some (s, "", none)
      | (k, d) :: _ =>
        let items1 := assocRemove b.items k
        let bykey1 := assocRemove s.bykey k
        if items1.length = 0 then
          match rest with
          | [] => none
          | _ => some ({ s with bykey := bykey1, buckets := rest }, k, some d)
        else
          some ({ s with bykey := bykey1, buckets := { b with items := items1 } :: rest }, k, some d)

/-- `LFU_Cache.Insert`: panics on a duplicate key; evicts when full; then
needs a frequency-1 bucket at the front.  On an empty bucket list the Go
code calls `GetNewNode(1, freq_Head, nil)`, which writes `nil.prev` and
panics — so inserting into a fresh cache always panics. -/
def lfuInsert (s : LfuState) (key : String) (value : Nat) : Option LfuState :=
  if (assocLookup s.bykey key).isSome then none
  else
    let afterEvict : Option LfuState :=
      if s.bykey.length = s.size then (lfuEvict s).map (fun r => r.1) else some s
    afterEvict.bind fun s1 =>
      match s1.buckets with
      | [] => none
      | b :: rest =>
        if b.value = 1 then
          some { s1 with
            bykey := assocSet s1.bykey key value,
            buckets := { b with items := assocSet b.items key value } :: rest }
        else
          some { s1 with
            bykey := assocSet s1.bykey key value,
            buckets := ⟨1, [(key, value)]⟩ :: b :: rest }

/-- Insert a bucket at position `i` of the bucket list. -/
def bucketsInsertAt (l : List FreqBucket) (i : Nat) (b : FreqBucket) : List FreqBucket :=
  l.take i ++ b :: l.drop i

/-- `LFU_Cache.Access`: `panic("No such key")` on a missing key (`none`).
On a hit, move the item from its bucket (position `i`, frequency `f`) to a
bucket of frequency `f + 1` right after it, creating that bucket if the next
one has a different frequency, and unlink the old bucket if it emptied.
When the item sits in the LAST bucket, the Go code calls
`GetNewNode(f + 1, freq, nil)` and panics on `nil.prev`. -/
def lfuAccess (s : LfuState) (key : String) : Option (LfuState × Nat) :=
  match assocLookup s.bykey key with
  | none => none
  | some d =>
    match s.buckets.findIdx? (fun b => (assocLookup b.items key).isSome) with
    | none => none
    | some i =>
      match s.buckets.get? i with
      | none => none
      | some b =>
        match s.buckets.get? (i + 1) with
        | none => none
        | some nb =>
          let items1 := assocRemove b.items key
          if nb.value = b.value + 1 then
            let l1 := (s.buckets.set (i + 1) { nb with items := assocSet nb.items key d }).set
              i { b with items := items1 }
            some ({ s with buckets := if items1.length = 0 then l1.eraseIdx i else l1 }, d)
          else
            let l1 := bucketsInsertAt (s.buckets.set i { b with items := items1 }) (i + 1)
              ⟨b.value + 1, [(key, d)]⟩
            some ({ s with buckets := if items1.length = 0 then l1.eraseIdx i else l1 }, d)

/-! ## Auxiliary lemmas about the map and list operations -/

theorem assocLookup_set_self {α : Type} (l : List (String × α)) (k : String) (v : α) :
    assocLookup (assocSet l k v) k = some v := by
  induction l with
  | nil => simp [assocSet, assocLookup]
  | cons e rest ih =>
    obtain ⟨k1, v1⟩ := e
    by_cases h : k1 = k
    · simp [assocSet, assocLookup, h]
    · simp [assocSet, assocLookup, h, ih]

theorem assocSet_length_present {α : Type} (l : List (String × α)) (k : String) (v w : α)
    (h : assocLookup l k = some w) : (assocSet l k v).length = l.length := by
  induction l with
  | nil => simp [assocLookup] at h
  | cons e rest ih =>
    obtain ⟨k1, v1⟩ := e
    by_cases hk : k1 = k
    · simp [assocSet, hk]
    · simp only [assocLookup, if_neg hk] at h
      simp [assocSet, hk, ih h]

theorem assocLookup_remove_self {α : Type} (l : List (String × α)) (k : String) :
    assocLookup (assocRemove l k) k = none := by
  induction l with
  | nil => simp [assocRemove, assocLookup]
  | cons e rest ih =>
    obtain ⟨k1, v1⟩ := e
    by_cases hk : k1 = k
    · simpa [assocRemove, hk] using ih
    · simpa [assocRemove, hk, assocLookup] using ih

theorem assocLookup_remove_ne {α : Type} (l : List (String × α)) (k q : String)
    (h : q ≠ k) : assocLookup (assocRemove l k) q = assocLookup l q := by
  have hkq : k ≠ q := fun hh => h hh.symm
  induction l with
  | nil => simp [assocRemove]
  | cons e rest ih =>
    obtain ⟨k1, v1⟩ := e
    by_cases hk : k1 = k
    · subst hk
      simp [assocRemove, assocLookup, hkq, ih]
    · simp [assocRemove, hk, assocLookup, ih]

theorem sweepSeg_none_all_visited (W : List SNode) :
    sweepSeg W = none → ∀ n ∈ W, n.visited = true := by
  induction W with
  | nil => intro _ n hn; cases hn
  | cons a rest ih =>
    intro h n hn
    cases hv : a.visited with
    | false => simp [sweepSeg, hv] at h
    | true =>
      cases hr : sweepSeg rest with
      | none =>
        rcases List.mem_cons.mp hn with rfl | hn2
        · exact hv
        · exact ih hr n hn2
      | some cvr =>
        obtain ⟨c, v, r⟩ := cvr
        simp [sweepSeg, hv, hr] at h

theorem sweepSeg_some_of_exists (W : List SNode) (hx : ∃ x ∈ W, x.visited = false) :
    ∃ cvr, sweepSeg W = some cvr := by
  cases h : sweepSeg W with
  | none =>
    obtain ⟨x, hx1, hx2⟩ := hx
    have := sweepSeg_none_all_visited W h x hx1
    rw [this] at hx2
    cases hx2
  | some cvr => exact ⟨cvr, rfl⟩

theorem sweepSeg_some_spec (W : List SNode) :
    ∀ (c : List SNode) (v : SNode) (r : List SNode), sweepSeg W = some (c, v, r) →
      v ∈ W ∧ v.visited = false := by
  induction W with
  | nil => intro c v r h; simp [sweepSeg] at h
  | cons a rest ih =>
    intro c v r h
    cases hv : a.visited with
    | false =>
      simp only [sweepSeg, hv, Bool.false_eq_true, if_false, Option.some.injEq] at h
      rcases h with ⟨rfl, rfl, rfl⟩
      exact ⟨List.mem_cons_self a rest, hv⟩
    | true =>
      cases hr : sweepSeg rest with
      | none => simp [sweepSeg, hv, hr] at h
      | some cvr =>
        obtain ⟨c2, v2, r2⟩ := cvr
        simp only [sweepSeg, hv, if_true, hr, Option.some.injEq] at h
        rcases h with ⟨rfl, rfl, rfl⟩
        obtain ⟨hm, hvv⟩ := ih _ _ _ hr
        exact ⟨List.mem_cons_of_mem a hm, hvv⟩

theorem sweepSeg_append_left (X Y : List SNode) :
    ∀ (c : List SNode) (v : SNode) (r : List SNode),
      (∃ x ∈ X, x.visited = false) → sweepSeg (X ++ Y) = some (c, v, r) →
      v ∈ X ∧ v.visited = false := by
  induction X with
  | nil =>
    intro c v r hx _
    obtain ⟨x, hx1, -⟩ := hx
    cases hx1
  | cons a rest ih =>
    intro c v r hx h
    cases hv : a.visited with
    | false =>
      simp only [List.cons_append, sweepSeg, hv, Bool.false_eq_true, if_false,
        Option.some.injEq] at h
      rcases h with ⟨rfl, rfl, rfl⟩
      exact ⟨List.mem_cons_self a rest, hv⟩
    | true =>
      have hx2 : ∃ x ∈ rest, x.visited = false := by
        obtain ⟨x, hx1, hxv⟩ := hx
        rcases List.mem_cons.mp hx1 with rfl | hmem
        · rw [hv] at hxv; cases hxv
        · exact ⟨x, hmem, hxv⟩
      rcases Option.eq_none_or_eq_some (sweepSeg (rest ++ Y)) with hr | ⟨⟨c2, v2, r2⟩, hr⟩
      · rw [List.cons_append] at h
        simp only [sweepSeg, hv, if_true] at h
        rw [hr] at h
        cases h
      · rw [List.cons_append] at h
        simp only [sweepSeg, hv, if_true] at h
        rw [hr] at h
        simp only [Option.some.injEq] at h
        rcases h with ⟨rfl, rfl, rfl⟩
        obtain ⟨hm, hvv⟩ := ih _ _ _ hx2 hr
        exact ⟨List.mem_cons_of_mem a hm, hvv⟩

/-! ## SIEVE: eviction picks an unvisited node -/

/-- Well-formedness of a SIEVE state as produced by the engine itself when no
key is ever re-inserted while resident: the eviction sweep has a valid
starting point, and every linked node is the one its key is indexed at (no
stale duplicate nodes). -/
def SieveWF (s : SieveState) : Prop :=
  (handStartPos s).isSome ∧
  ∀ n ∈ s.listNodes, assocLookup s.index n.key = some n.nid

instance (s : SieveState) : Decidable (SieveWF s) := by
  unfold SieveWF
  infer_instance

theorem sieveEvict_unvisited (s : SieveState) (hwf : SieveWF s)
    (huv : ∃ n ∈ s.listNodes, n.visited = false) :
    ∃ s1 victim, sieveEvictV s = some (s1, victim) ∧
      victim ∈ s.listNodes ∧ victim.visited = false ∧
      assocLookup s.index victim.key = some victim.nid ∧
      s1.index = assocRemove s.index victim.key := by
  obtain ⟨hhand, hidx⟩ := hwf
  obtain ⟨j, hj⟩ := Option.isSome_iff_exists.mp hhand
  rcases Option.eq_none_or_eq_some (sweepSeg (s.listNodes.take (j + 1)).reverse) with
    h1 | ⟨⟨c, v, r⟩, h1⟩
  · -- phase 1 cleared the whole stretch: every node up to the hand was
    -- visited, so the unvisited node sits in the dropped (wrapped-to) part
    have hall := sweepSeg_none_all_visited _ h1
    obtain ⟨n0, hn0, hn0v⟩ := huv
    have hn0' : n0 ∈ s.listNodes.take (j + 1) ++ s.listNodes.drop (j + 1) := by
      rw [List.take_append_drop]; exact hn0
    have hn0drop : n0 ∈ s.listNodes.drop (j + 1) := by
      rcases List.mem_append.mp hn0' with htake | hdrop
      · have := hall n0 (List.mem_reverse.mpr htake)
        rw [this] at hn0v; cases hn0v
      · exact hdrop
    have hrw : ((s.listNodes.take (j + 1)).map clearNode ++ s.listNodes.drop (j + 1)).reverse
        = (s.listNodes.drop (j + 1)).reverse ++ ((s.listNodes.take (j + 1)).map clearNode).reverse :=
      List.reverse_append _ _
    have hex : ∃ x ∈ (s.listNodes.drop (j + 1)).reverse, x.visited = false :=
      ⟨n0, List.mem_reverse.mpr hn0drop, hn0v⟩
    have hex2 : ∃ x ∈ ((s.listNodes.take (j + 1)).map clearNode
        ++ s.listNodes.drop (j + 1)).reverse, x.visited = false := by
      rw [hrw]
      obtain ⟨x, hx1, hx2⟩ := hex
      exact ⟨x, List.mem_append_left _ hx1, hx2⟩
    obtain ⟨⟨c, v, r⟩, h2⟩ := sweepSeg_some_of_exists _ hex2
    have hvX : v ∈ (s.listNodes.drop (j + 1)).reverse ∧ v.visited = false := by
      apply sweepSeg_append_left _ _ c v r hex
      rw [← hrw]; exact h2
    have hvmem : v ∈ s.listNodes :=
      (List.drop_sublist (j + 1) s.listNodes).subset (List.mem_reverse.mp hvX.1)
    refine ⟨{ s with listNodes := r.reverse ++ c.reverse, index := assocRemove s.index v.key, hand := newHand r }, v, ?_, hvmem, hvX.2, hidx v hvmem, rfl⟩
    simp only [sieveEvictV, hj, h1, h2]
  · obtain ⟨hm, hv⟩ := sweepSeg_some_spec _ c v r h1
    have hvmem : v ∈ s.listNodes :=
      (List.take_sublist (j + 1) s.listNodes).subset (List.mem_reverse.mp hm)
    refine ⟨{ s with listNodes := r.reverse ++ c.reverse ++ s.listNodes.drop (j + 1), index := assocRemove s.index v.key, hand := newHand r }, v, ?_, hvmem, hv, hidx v hvmem, rfl⟩
    simp only [sieveEvictV, hj, h1]

/-- The spec's SIEVE cap=2 end-to-end scenario:
`insert("a"), insert("b"), get("a"), get("b"), insert("c")`, reporting the
index entries of a, b, c and the resident count afterwards. -/
def sieveScenario : Option (Option Nat × Option Nat × Option Nat × Nat) :=
  (sieveInsert (newSieve 2) "a" 1).bind fun s1 =>
  (sieveInsert s1 "b" 2).bind fun s2 =>
  (sieveInsert ((sieveGet ((sieveGet s2 "a").1) "b").1) "c" 3).map fun s5 =>
    (assocLookup s5.index "a", assocLookup s5.index "b", assocLookup s5.index "c",
      s5.index.length)

/-- C2 (amended): provided no key is re-inserted while resident (so the
index owns exactly the linked nodes, `SieveWF`), an insert on a full cache
evicts a node that was unvisited at the start of the sweep whenever such a
node exists, removing exactly that node's key from the index; and the cap=2
all-visited scenario wraps and leaves exactly {b, c} resident. -/
theorem sieve_insert_evicts_unvisited :
    (∀ (s : SieveState) (k : String) (d : Nat),
      SieveWF s → s.index.length = s.capacity →
      (∃ n ∈ s.listNodes, n.visited = false) →
      ∃ s1 victim, sieveEvictV s = some (s1, victim) ∧
        victim ∈ s.listNodes ∧ victim.visited = false ∧
        assocLookup s.index victim.key = some victim.nid ∧
        s1.index = assocRemove s.index victim.key ∧
        sieveInsert s k d = some { s1 with listNodes := ⟨s1.nextId, k, false, d⟩ :: s1.listNodes, index := assocSet s1.index k s1.nextId, nextId := s1.nextId + 1 }) ∧
    sieveScenario = some (none, some 1, some 2, 2) := by
  constructor
  · intro s k d hwf hfull huv
    obtain ⟨s1, v, hev, hm, hv, hl, hidx⟩ := sieveEvict_unvisited s hwf huv
    refine ⟨s1, v, hev, hm, hv, hl, hidx, ?_⟩
    simp only [sieveInsert, if_pos hfull, hev, Option.map_some]
    rfl
  · rfl

/-- C2 witness: a concrete full, well-formed cap-2 cache in which "a" is
visited and "b" is not; the theorem's eviction branch applies. -/
theorem sieve_insert_evicts_unvisited_witness :
    ∃ s1 victim,
      sieveEvictV { capacity := 2, listNodes := [⟨1, "b", false, 2⟩, ⟨0, "a", true, 1⟩], index := [("a", 0), ("b", 1)], hand := .hnil, nextId := 2 } = some (s1, victim) ∧
      victim ∈ [(⟨1, "b", false, 2⟩ : SNode), ⟨0, "a", true, 1⟩] ∧ victim.visited = false ∧
      assocLookup [("a", 0), ("b", 1)] victim.key = some victim.nid ∧
      s1.index = assocRemove [("a", 0), ("b", 1)] victim.key ∧
      sieveInsert { capacity := 2, listNodes := [⟨1, "b", false, 2⟩, ⟨0, "a", true, 1⟩], index := [("a", 0), ("b", 1)], hand := .hnil, nextId := 2 } "c" 3 = some { s1 with listNodes := ⟨s1.nextId, "c", false, 3⟩ :: s1.listNodes, index := assocSet s1.index "c" s1.nextId, nextId := s1.nextId + 1 } :=
  sieve_insert_evicts_unvisited.1
    { capacity := 2, listNodes := [⟨1, "b", false, 2⟩, ⟨0, "a", true, 1⟩], index := [("a", 0), ("b", 1)], hand := .hnil, nextId := 2 }
    "c" 3 (by decide) (by decide) ⟨⟨1, "b", false, 2⟩, by decide, rfl⟩

/-- The trace refuting C2 as stated: cap 3, `insert a, insert b, insert a`
(duplicate, leaving a stale node for "a"), `insert c, get a`; the resulting
state is about to execute `insert d` on a full cache. -/
def sieveCex : Option SieveState :=
  (sieveInsert (newSieve 3) "a" 1).bind fun s1 =>
  (sieveInsert s1 "b" 2).bind fun s2 =>
  (sieveInsert s2 "a" 3).bind fun s3 =>
  (sieveInsert s3 "c" 4).map fun s4 => (sieveGet s4 "a").1

/-- C2 counterexample: at the moment of the full `insert d`, the resident
key "a" has its (indexed, current) node visited and the resident key "b" is
unvisited — yet the insert removes "a" from the index (the sweep unlinks the
stale unvisited node of "a" left by the duplicate insert) and keeps "b". -/
theorem sieve_unvisited_claim_counterexample :
    (sieveCex.bind fun s5 =>
      (sieveInsert s5 "d" 5).map fun s6 =>
        (s5.listNodes.any fun n => (assocLookup s5.index "a" == some n.nid) && n.visited,
         s5.listNodes.any fun n => (assocLookup s5.index "b" == some n.nid) && !n.visited,
         assocLookup s6.index "a", assocLookup s6.index "b", assocLookup s6.index "c",
         assocLookup s6.index "d"))
    = some (true, true, none, some 1, some 3, some 4) := by rfl

/-- C10: `Insert` on an already-resident key with the cache below capacity
does not update the node in place: it links a second fresh node (visited
false) right after HEAD, repoints the index entry to it, keeps the old node
linked, and leaves the index one entry shorter than the list. -/
theorem sieve_duplicate_insert (s : SieveState) (k : String) (d : Nat) (n : SNode)
    (hidx : assocLookup s.index k = some n.nid)
    (hn : n ∈ s.listNodes)
    (hfresh : ∀ m ∈ s.listNodes, m.nid < s.nextId)
    (hlen : s.listNodes.length = s.index.length)
    (hcap : s.index.length < s.capacity) :
    ∃ s2, sieveInsert s k d = some s2 ∧
      s2.listNodes = ⟨s.nextId, k, false, d⟩ :: s.listNodes ∧
      assocLookup s2.index k = some s.nextId ∧
      n ∈ s2.listNodes ∧ n ≠ (⟨s.nextId, k, false, d⟩ : SNode) ∧
      s2.index.length = s.index.length ∧
      s2.listNodes.length = s2.index.length + 1 := by
  have hne : s.index.length ≠ s.capacity := Nat.ne_of_lt hcap
  refine ⟨{ s with listNodes := ⟨s.nextId, k, false, d⟩ :: s.listNodes, index := assocSet s.index k s.nextId, nextId := s.nextId + 1 }, ?_, rfl, ?_, ?_, ?_, ?_, ?_⟩
  · simp only [sieveInsert, if_neg hne, Option.map_some]
    rfl
  · exact assocLookup_set_self s.index k s.nextId
  · exact List.mem_cons_of_mem _ hn
  · intro he
    have hlt := hfresh n hn
    rw [he] at hlt
    exact Nat.lt_irrefl _ hlt
  · exact assocSet_length_present s.index k s.nextId n.nid hidx
  · simp only [List.length_cons, assocSet_length_present s.index k s.nextId n.nid hidx, hlen]

/-- C10 witness: re-inserting "a" into a cap-3 cache holding {a, b}. -/
theorem sieve_duplicate_insert_witness :
    ∃ s2, sieveInsert { capacity := 3, listNodes := [⟨1, "b", false, 2⟩, ⟨0, "a", false, 1⟩], index := [("a", 0), ("b", 1)], hand := .hnil, nextId := 2 } "a" 9 = some s2 ∧
      s2.listNodes = ⟨2, "a", false, 9⟩ :: [⟨1, "b", false, 2⟩, ⟨0, "a", false, 1⟩] ∧
      assocLookup s2.index "a" = some 2 ∧
      (⟨0, "a", false, 1⟩ : SNode) ∈ s2.listNodes ∧
      (⟨0, "a", false, 1⟩ : SNode) ≠ (⟨2, "a", false, 9⟩ : SNode) ∧
      s2.index.length = 2 ∧
      s2.listNodes.length = s2.index.length + 1 :=
  sieve_duplicate_insert
    { capacity := 3, listNodes := [⟨1, "b", false, 2⟩, ⟨0, "a", false, 1⟩], index := [("a", 0), ("b", 1)], hand := .hnil, nextId := 2 }
    "a" 9 ⟨0, "a", false, 1⟩ rfl (by decide) (by decide) rfl (by decide)

/-! ## LRU-K: claims about Set, FindVictim and the cleanup pass -/

theorem assocLookup_isSome_iff {α : Type} (l : List (String × α)) (k : String) :
    (assocLookup l k).isSome = true ↔ k ∈ l.map Prod.fst := by
  induction l with
  | nil => simp [assocLookup]
  | cons e rest ih =>
    obtain ⟨k1, v1⟩ := e
    by_cases h : k1 = k
    · subst h; simp [assocLookup]
    · have h2 : ¬ k = k1 := fun hh => h hh.symm
      simp [assocLookup, h, ih, h2]

/-- `t − LAST(p) > CRP`: the page is outside its correlated reference
period, hence evictable.  Stated as the code reads it (a missing LAST would
panic; such a page never qualifies). -/
def lruQualifies (s : LruKState) (t : Int) (p : String) : Prop :=
  match assocLookup s.last p with
  | none => False
  | some tl => s.CRP < t - tl

instance (s : LruKState) (t : Int) (p : String) : Decidable (lruQualifies s t p) :=
  match h : assocLookup s.last p with
  | none => isFalse (by simp [lruQualifies, h])
  | some tl => decidable_of_iff (s.CRP < t - tl) (by simp [lruQualifies, h])

/-- `HIST(p, i)` exists and is an instant strictly before `t`.  This can
FAIL on engine-built states: for K ≥ 3, correlated references advance only
LAST, so `correl = LAST − HIST[0]` can exceed CRP and the sequential shift
of `set` then writes `HIST[K−1] = HIST[0] + (K−1)·correl`, an instant in
the future (see `lrukVictimCexTrace`). -/
def histBelow (s : LruKState) (p : String) (i : Nat) (t : Int) : Prop :=
  match histGet s p i with
  | none => False
  | some hp => hp < t

instance (s : LruKState) (p : String) (i : Nat) (t : Int) :
    Decidable (histBelow s p i t) :=
  match h : histGet s p i with
  | none => isFalse (by simp [histBelow, h])
  | some hp => decidable_of_iff (hp < t) (by simp [histBelow, h])

theorem findVictimLoop_spec (s : LruKState) (t : Int) :
    ∀ (rest : List String) (v : String) (m : Int),
      (∀ p ∈ rest, lruQualifies s t p → (histGet s p (s.K - 1)).isSome) →
      (∀ p ∈ rest, (assocLookup s.last p).isSome) →
      ∃ v2 m2, findVictimLoop s t rest v m = some (v2, m2) ∧
        m2 ≤ m ∧
        ((v2 = v ∧ m2 = m) ∨
          (v2 ∈ rest ∧ lruQualifies s t v2 ∧ histGet s v2 (s.K - 1) = some m2)) ∧
        (∀ p ∈ rest, lruQualifies s t p →
          ∃ hp, histGet s p (s.K - 1) = some hp ∧ m2 ≤ hp) ∧
        ((∀ p ∈ rest, lruQualifies s t p →
            ∀ hp, histGet s p (s.K - 1) = some hp → m ≤ hp) → v2 = v ∧ m2 = m) := by
  intro rest
  induction rest with
  | nil =>
    intro v m _ _
    exact ⟨v, m, rfl, le_refl m, Or.inl ⟨rfl, rfl⟩,
      fun p hp => absurd hp (List.not_mem_nil p), fun _ => ⟨rfl, rfl⟩⟩
  | cons p rest ih =>
    intro v m hq hdom
    obtain ⟨tl, htl⟩ := Option.isSome_iff_exists.mp (hdom p (List.mem_cons_self p rest))
    have hqrest : ∀ q ∈ rest, lruQualifies s t q → (histGet s q (s.K - 1)).isSome :=
      fun q hmem => hq q (List.mem_cons_of_mem p hmem)
    have hdrest : ∀ q ∈ rest, (assocLookup s.last q).isSome :=
      fun q hmem => hdom q (List.mem_cons_of_mem p hmem)
    by_cases hc : s.CRP < t - tl
    · have hqp : lruQualifies s t p := by simp [lruQualifies, htl, hc]
      obtain ⟨hp0, hhp⟩ :=
        Option.isSome_iff_exists.mp (hq p (List.mem_cons_self p rest) hqp)
      by_cases hlt : hp0 < m
      · obtain ⟨v2, m2, hrec, hle, hprov, hmin, -⟩ := ih p hp0 hqrest hdrest
        refine ⟨v2, m2, ?_, le_trans hle (le_of_lt hlt), ?_, ?_, ?_⟩
        · simp only [findVictimLoop, htl, if_pos hc, hhp, if_pos hlt]
          exact hrec
        · rcases hprov with ⟨hv2, hm2⟩ | ⟨hmem, hq2, hh2⟩
          · refine Or.inr ⟨?_, ?_, ?_⟩
            · rw [hv2]; exact List.mem_cons_self p rest
            · rw [hv2]; exact hqp
            · rw [hv2, hm2]; exact hhp
          · exact Or.inr ⟨List.mem_cons_of_mem p hmem, hq2, hh2⟩
        · intro q hmem hq2
          rcases List.mem_cons.mp hmem with rfl | hmem2
          · exact ⟨hp0, hhp, hle⟩
          · exact hmin q hmem2 hq2
        · intro hnone
          have := hnone p (List.mem_cons_self p rest) hqp hp0 hhp
          exact absurd hlt (not_lt.mpr this)
      · obtain ⟨v2, m2, hrec, hle, hprov, hmin, hnone⟩ := ih v m hqrest hdrest
        refine ⟨v2, m2, ?_, hle, ?_, ?_, ?_⟩
        · simp only [findVictimLoop, htl, if_pos hc, hhp, if_neg hlt]
          exact hrec
        · rcases hprov with ⟨hv2, hm2⟩ | ⟨hmem, hq2, hh2⟩
          · exact Or.inl ⟨hv2, hm2⟩
          · exact Or.inr ⟨List.mem_cons_of_mem p hmem, hq2, hh2⟩
        · intro q hmem hq2
          rcases List.mem_cons.mp hmem with rfl | hmem2
          · exact ⟨hp0, hhp, le_trans hle (le_of_not_lt hlt)⟩
          · exact hmin q hmem2 hq2
        · intro hn
          exact hnone (fun q hmem hq2 hp2 hh2 => hn q (List.mem_cons_of_mem p hmem) hq2 hp2 hh2)
    · have hnqp : ¬ lruQualifies s t p := by simp [lruQualifies, htl, hc]
      obtain ⟨v2, m2, hrec, hle, hprov, hmin, hnone⟩ := ih v m hqrest hdrest
      refine ⟨v2, m2, ?_, hle, ?_, ?_, ?_⟩
      · simp only [findVictimLoop, htl, if_neg hc]
        exact hrec
      · rcases hprov with ⟨hv2, hm2⟩ | ⟨hmem, hq2, hh2⟩
        · exact Or.inl ⟨hv2, hm2⟩
        · exact Or.inr ⟨List.mem_cons_of_mem p hmem, hq2, hh2⟩
      · intro q hmem hq2
        rcases List.mem_cons.mp hmem with rfl | hmem2
        · exact absurd hq2 hnqp
        · exact hmin q hmem2 hq2
      · intro hn
        exact hnone (fun q hmem hq2 hp2 hh2 => hn q (List.mem_cons_of_mem p hmem) hq2 hp2 hh2)

/-- The engine-built state refuting C3 as stated: K = 3, cap = 2,
CRP = 100; `set a` at t = 1000, three correlated `set a` at 1100, 1200,
1300 (only LAST advances, so correl grows to 300), an uncorrelated `set a`
at 1401 (the sequential shift writes HIST(a) = [1401, 1300, 1600] — a
future instant at position K−1), then `set b` at 1450. -/
def lrukVictimCexTrace : Option LruKState :=
  (lruSet (newLruK 3 2 100) "a" 1 1000 []).bind fun s1 =>
  (lruSet s1 "a" 1 1100 []).bind fun s2 =>
  (lruSet s2 "a" 1 1200 []).bind fun s3 =>
  (lruSet s3 "a" 1 1300 []).bind fun s4 =>
  (lruSet s4 "a" 1 1401 []).bind fun s5 =>
  lruSet s5 "b" 2 1450 []

/-- C3 counterexample: at t = 1502 the resident key "a" satisfies
`t − LAST(a) = 101 > CRP = 100` — a qualifying resident exists — and the
zero key is not resident, yet `FindVictim` returns the zero key: the loop's
initial `min := t` filter skips "a" because `HIST(a, K−1) = 1600 ≥ t`. -/
theorem lruk_find_victim_claim_counterexample :
    (lrukVictimCexTrace.map fun s =>
      (findVictim s 1502 ["a", "b"],
       decide (lruQualifies s 1502 "a"),
       (assocLookup s.buffer "a").isSome,
       assocLookup s.buffer "",
       histGet s "a" (s.K - 1)))
    = some (some "", true, true, none, some 1600) := by rfl

/-- C3 (amended): `FindVictim` at time `t` returns a resident key that
qualifies (`t − LAST(p) > CRP`) and minimizes `HIST(p, K−1)` among ALL
qualifying residents, provided some qualifying resident has
`HIST(p, K−1) < t`; when no qualifying resident has `HIST(p, K−1) < t`
(in particular when no resident qualifies at all), it returns the default
(zero) key.  `order` is the buffer iteration order of the Go map (any
permutation of the resident keys); qualifying residents are assumed to have
a history entry at K−1, as the engine always allocates. -/
theorem lruk_find_victim_spec (s : LruKState) (t : Int) (order : List String)
    (horder : order.Perm (s.buffer.map Prod.fst))
    (hdom : ∀ p ∈ order, (assocLookup s.last p).isSome)
    (hq : ∀ p ∈ order, lruQualifies s t p → (histGet s p (s.K - 1)).isSome) :
    ∃ v, findVictim s t order = some v ∧
      ((∃ p ∈ order, lruQualifies s t p ∧ histBelow s p (s.K - 1) t) →
        (assocLookup s.buffer v).isSome ∧ lruQualifies s t v ∧
        ∃ hv, histGet s v (s.K - 1) = some hv ∧
          ∀ q ∈ order, lruQualifies s t q →
            ∃ hq2, histGet s q (s.K - 1) = some hq2 ∧ hv ≤ hq2) ∧
      ((∀ p ∈ order, lruQualifies s t p → ¬ histBelow s p (s.K - 1) t) → v = "") := by
  obtain ⟨v2, m2, hrec, hle, hprov, hmin, hnone⟩ := findVictimLoop_spec s t order "" t hq hdom
  refine ⟨v2, ?_, ?_, ?_⟩
  · simp only [findVictim, hrec]
    rfl
  · rintro ⟨p, hpmem, hpq, hpb⟩
    obtain ⟨hp, hhp, hplt⟩ : ∃ hp, histGet s p (s.K - 1) = some hp ∧ hp < t := by
      revert hpb
      unfold histBelow
      cases hh : histGet s p (s.K - 1) with
      | none => intro hf; cases hf
      | some x => intro hx; exact ⟨x, rfl, hx⟩
    obtain ⟨hp2, hhp2, hple⟩ := hmin p hpmem hpq
    rw [hhp] at hhp2
    obtain rfl : hp2 = hp := (Option.some.inj hhp2).symm
    have hm2lt : m2 < t := lt_of_le_of_lt hple hplt
    rcases hprov with ⟨-, hm2⟩ | ⟨hmem, hq2, hh2⟩
    · rw [hm2] at hm2lt
      exact absurd hm2lt (lt_irrefl t)
    · refine ⟨?_, hq2, m2, hh2, hmin⟩
      rw [assocLookup_isSome_iff]
      exact horder.mem_iff.mp hmem
  · intro hn
    refine (hnone ?_).1
    intro q hmem hq2 hp2 hh2
    have hnb := hn q hmem hq2
    revert hnb
    unfold histBelow
    rw [hh2]
    exact fun hx => le_of_not_lt hx

/-- C3 witness: K = 2, CRP = 5, t = 100; both residents are outside their
correlated period, have past K-th references, and `k1`'s `HIST[1]` is the
smaller. -/
theorem lruk_find_victim_spec_witness :
    ∃ v, findVictim { K := 2, CRP := 5, RIP := 0, Cap := 2, buffer := [("k1", 1), ("k2", 2)], hist := [("k1", [30, 5]), ("k2", [90, 20])], last := [("k1", 30), ("k2", 90)] } 100 ["k1", "k2"] = some v ∧
      ((∃ p ∈ ["k1", "k2"], lruQualifies { K := 2, CRP := 5, RIP := 0, Cap := 2, buffer := [("k1", 1), ("k2", 2)], hist := [("k1", [30, 5]), ("k2", [90, 20])], last := [("k1", 30), ("k2", 90)] } 100 p ∧ histBelow { K := 2, CRP := 5, RIP := 0, Cap := 2, buffer := [("k1", 1), ("k2", 2)], hist := [("k1", [30, 5]), ("k2", [90, 20])], last := [("k1", 30), ("k2", 90)] } p (2 - 1) 100) →
        (assocLookup [("k1", (1 : Nat)), ("k2", 2)] v).isSome ∧
        lruQualifies { K := 2, CRP := 5, RIP := 0, Cap := 2, buffer := [("k1", 1), ("k2", 2)], hist := [("k1", [30, 5]), ("k2", [90, 20])], last := [("k1", 30), ("k2", 90)] } 100 v ∧
        ∃ hv, histGet { K := 2, CRP := 5, RIP := 0, Cap := 2, buffer := [("k1", 1), ("k2", 2)], hist := [("k1", [30, 5]), ("k2", [90, 20])], last := [("k1", 30), ("k2", 90)] } v (2 - 1) = some hv ∧
          ∀ q ∈ ["k1", "k2"], lruQualifies { K := 2, CRP := 5, RIP := 0, Cap := 2, buffer := [("k1", 1), ("k2", 2)], hist := [("k1", [30, 5]), ("k2", [90, 20])], last := [("k1", 30), ("k2", 90)] } 100 q →
            ∃ hq2, histGet { K := 2, CRP := 5, RIP := 0, Cap := 2, buffer := [("k1", 1), ("k2", 2)], hist := [("k1", [30, 5]), ("k2", [90, 20])], last := [("k1", 30), ("k2", 90)] } q (2 - 1) = some hq2 ∧ hv ≤ hq2) ∧
      ((∀ p ∈ ["k1", "k2"], lruQualifies { K := 2, CRP := 5, RIP := 0, Cap := 2, buffer := [("k1", 1), ("k2", 2)], hist := [("k1", [30, 5]), ("k2", [90, 20])], last := [("k1", 30), ("k2", 90)] } 100 p → ¬ histBelow { K := 2, CRP := 5, RIP := 0, Cap := 2, buffer := [("k1", 1), ("k2", 2)], hist := [("k1", [30, 5]), ("k2", [90, 20])], last := [("k1", 30), ("k2", 90)] } p (2 - 1) 100) → v = "") :=
  lruk_find_victim_spec
    { K := 2, CRP := 5, RIP := 0, Cap := 2, buffer := [("k1", 1), ("k2", 2)], hist := [("k1", [30, 5]), ("k2", [90, 20])], last := [("k1", 30), ("k2", 90)] }
    100 ["k1", "k2"] (by decide) (by decide) (by decide)

/-- C1: the universal capacity bound fails on the code: for LRU-K with
K = 2, capacity 1, CRP = 10, `set("a")` followed by `set("b")` in the same
second returns normally with TWO resident keys — `FindVictim` finds no page
outside the correlated period, returns the zero key, whose deletion is a
no-op, and the new key is installed regardless. -/
theorem lruk_capacity_overflow :
    ((lruSet (newLruK 2 1 10) "a" 1 100 []).bind fun s1 =>
      (lruSet s1 "b" 2 100 ["a"]).map fun s2 => (s2.buffer.length, s2.Cap))
    = some (2, 1) := by rfl

/-- The LRU-K state refuting C4: K = 3, resident key "k" with
HIST = [10, 4, 1], LAST = 12, CRP = 0. -/
def lrukShiftCex : LruKState :=
  { K := 3, CRP := 0, RIP := 0, Cap := 1,
    buffer := [("k", 0)], hist := [("k", [10, 4, 1])], last := [("k", 12)] }

/-- C4 counterexample: the uncorrelated `set` at t = 20 (correl = 12 − 10 =
2) produces HIST = [20, 12, 14]: entry 2 is 14 = (10 + 2) + 2, computed from
the ALREADY-REWRITTEN HIST[1], whereas the claim's "pre-update HIST[i−1]
plus correl" demands 4 + 2 = 6. -/
theorem lruk_shift_claim_counterexample :
    (lruSet lrukShiftCex "k" 7 20 []).map (fun s2 => assocLookup s2.hist "k")
      = some (some [20, 12, 14]) ∧ ¬((4 : Int) + (12 - 10) = 14) := ⟨rfl, by decide⟩

/-- The LRU-K state refuting C5: K = 1, RIP = 100, resident key "k" whose
single history entry is the timestamp 1000. -/
def lrukRipCex : LruKState :=
  { K := 1, CRP := 0, RIP := 100, Cap := 10,
    buffer := [("k", 5)], hist := [("k", [1000])], last := [("k", 1000)] }

/-- C5 counterexample: a sweep one second after the reference (t = 1001, so
the key's backward K-distance is 1001 − 1000 = 1 ≤ RIP = 100, and the claim
says the key is kept) still deletes "k", because the code compares the raw
stored timestamp `HIST(k, K−1) = 1000` against RIP instead of `t − HIST`. -/
theorem lruk_rip_claim_counterexample :
    (cleanupPass lrukRipCex ["k"]).map
      (fun s2 => (assocLookup s2.buffer "k", assocLookup s2.hist "k", assocLookup s2.last "k"))
      = some (none, none, none) ∧ ¬((1001 : Int) - 1000 > 100) := ⟨rfl, by decide⟩

theorem seqAddO_spec (correl : Int) :
    ∀ (fuel i : Nat) (h : List Int) (a : Int),
      1 ≤ i → i + fuel ≤ h.length → h.get? (i - 1) = some a →
      ∃ h2, seqAddO correl i fuel h = some h2 ∧
        h2.length = h.length ∧
        (∀ j, j < i → h2.get? j = h.get? j) ∧
        (∀ j, i ≤ j → j < i + fuel →
          h2.get? j = some (a + ((j - i + 1 : Nat) : Int) * correl)) ∧
        (∀ j, i + fuel ≤ j → h2.get? j = h.get? j) := by
  intro fuel
  induction fuel with
  | zero =>
    intro i h a hi hlen hget
    exact ⟨h, rfl, rfl, fun j _ => rfl,
      fun j hij hj => absurd hj (by omega), fun j _ => rfl⟩
  | succ fuel ih =>
    intro i h a hi hlen hget
    have hilt : i < h.length := by omega
    have hset_len : (h.set i (a + correl)).length = h.length := List.length_set h i _
    have hget_i : (h.set i (a + correl)).get? i = some (a + correl) :=
      List.get?_set_eq_of_lt _ hilt
    obtain ⟨h2, hrec, hlen2, hlo, hmid, hhi⟩ :=
      ih (i + 1) (h.set i (a + correl)) (a + correl) (by omega) (by omega)
        (by simpa using hget_i)
    refine ⟨h2, ?_, by rw [hlen2, hset_len], ?_, ?_, ?_⟩
    · simp only [seqAddO, hget]
      exact hrec
    · intro j hj
      rw [hlo j (by omega), List.get?_set_ne _ _ (by omega)]
    · intro j hij hj
      by_cases hje : j = i
      · subst hje
        rw [hlo j (by omega), hget_i]
        have he : (j - j + 1 : Nat) = 1 := by omega
        rw [he]
        norm_num
      · have hj1 : i + 1 ≤ j := by omega
        rw [hmid j hj1 (by omega)]
        have he : (j - (i + 1) + 1 : Nat) + 1 = (j - i + 1 : Nat) := by omega
        congr 1
        rw [← he]
        push_cast
        ring
    · intro j hj
      rw [hhi j (by omega), List.get?_set_ne _ _ (by omega)]

/-- C4 (amended): on a resident key outside its correlated period, `set`
replaces the stored bytes, sets `HIST[0] := t` and `LAST := t`, and rewrites
the history SEQUENTIALLY — iteration `i` reads the entry just written by
iteration `i−1` — so the new `HIST[i]` is `HIST[0]_pre + i·correl` (the
post-update `HIST[i−1]` plus correl), not the pre-update `HIST[i−1]` plus
correl. -/
theorem lruk_set_uncorrelated (s : LruKState) (key : String) (data : Nat) (t : Int)
    (order : List String) (d0 : Nat) (tl h0 : Int) (h : List Int)
    (hbuf : assocLookup s.buffer key = some d0)
    (hlast : assocLookup s.last key = some tl)
    (hcrp : s.CRP < t - tl)
    (hh : assocLookup s.hist key = some h)
    (hlen : h.length = s.K)
    (hK : 1 ≤ s.K)
    (hh0 : h.get? 0 = some h0) :
    ∃ h2, lruSet s key data t order = some { s with hist := assocSet s.hist key h2, last := assocSet s.last key t, buffer := assocSet s.buffer key data } ∧
      h2.length = s.K ∧ h2.get? 0 = some t ∧
      ∀ j, 1 ≤ j → j < s.K → h2.get? j = some (h0 + (j : Int) * (tl - h0)) := by
  obtain ⟨h1, hrec, hlen1, hlo, hmid, hhi⟩ :=
    seqAddO_spec (tl - h0) (s.K - 1) 1 h h0 (le_refl 1) (by omega) hh0
  refine ⟨h1.set 0 t, ?_, ?_, ?_, ?_⟩
  · have hgt : histGet s key 0 = some h0 := by
      unfold histGet
      rw [hh]
      exact hh0
    simp only [lruSet, hbuf, hlast, if_pos hcrp, hgt, hh, hrec]
  · rw [List.length_set, hlen1, hlen]
  · apply List.get?_set_eq_of_lt
    rw [hlen1, hlen]
    omega
  · intro j h1j hjK
    rw [List.get?_set_ne _ _ (by omega), hmid j h1j (by omega)]
    have he : (j - 1 + 1 : Nat) = j := by omega
    rw [he]

/-- C4 witness: K = 2, CRP = 1, resident "k" with HIST = [10, 0],
LAST = 12, set at t = 20 (correl = 2). -/
theorem lruk_set_uncorrelated_witness :
    ∃ h2, lruSet { K := 2, CRP := 1, RIP := 0, Cap := 1, buffer := [("k", 1)], hist := [("k", [10, 0])], last := [("k", 12)] } "k" 9 20 [] = some { K := 2, CRP := 1, RIP := 0, Cap := 1, buffer := assocSet [("k", 1)] "k" 9, hist := assocSet [("k", [10, 0])] "k" h2, last := assocSet [("k", 12)] "k" 20 } ∧
      h2.length = 2 ∧ h2.get? 0 = some 20 ∧
      ∀ j, 1 ≤ j → j < 2 → h2.get? j = some (10 + (j : Int) * (12 - 10)) :=
  lruk_set_uncorrelated
    { K := 2, CRP := 1, RIP := 0, Cap := 1, buffer := [("k", 1)], hist := [("k", [10, 0])], last := [("k", 12)] }
    "k" 9 20 [] 1 12 10 [10, 0] rfl rfl (by decide) rfl rfl (by decide) rfl

theorem cleanupPass_spec :
    ∀ (order : List String) (s : LruKState),
      order.Nodup →
      (∀ p ∈ order, (histGet s p (s.K - 1)).isSome) →
      ∃ s2, cleanupPass s order = some s2 ∧
        (∀ p ∈ order, ∀ bkd, histGet s p (s.K - 1) = some bkd →
          (s.RIP < bkd →
            assocLookup s2.buffer p = none ∧ assocLookup s2.hist p = none ∧
            assocLookup s2.last p = none) ∧
          (¬ s.RIP < bkd →
            assocLookup s2.buffer p = assocLookup s.buffer p ∧
            assocLookup s2.hist p = assocLookup s.hist p ∧
            assocLookup s2.last p = assocLookup s.last p)) ∧
        (∀ q, q ∉ order →
          assocLookup s2.buffer q = assocLookup s.buffer q ∧
          assocLookup s2.hist q = assocLookup s.hist q ∧
          assocLookup s2.last q = assocLookup s.last q) := by
  intro order
  induction order with
  | nil =>
    intro s _ _
    exact ⟨s, rfl, fun p hp => absurd hp (List.not_mem_nil p), fun q _ => ⟨rfl, rfl, rfl⟩⟩
  | cons p rest ih =>
    intro s hnodup hdom
    obtain ⟨bkd0, hbkd0⟩ :=
      Option.isSome_iff_exists.mp (hdom p (List.mem_cons_self p rest))
    have hnp : p ∉ rest := (List.nodup_cons.mp hnodup).1
    have hner : ∀ q ∈ rest, q ≠ p := fun q hq he => hnp (he ▸ hq)
    by_cases hrip : s.RIP < bkd0
    · have hdom1 : ∀ q ∈ rest, (histGet (lruCleanup s p) q ((lruCleanup s p).K - 1)).isSome := by
        intro q hq
        have : histGet (lruCleanup s p) q (s.K - 1) = histGet s q (s.K - 1) := by
          simp [histGet, lruCleanup, assocLookup_remove_ne s.hist p q (hner q hq)]
        rw [show (lruCleanup s p).K = s.K from rfl, this]
        exact hdom q (List.mem_cons_of_mem p hq)
      obtain ⟨s2, hrec, hmain, hpres⟩ := ih (lruCleanup s p) (List.nodup_cons.mp hnodup).2 hdom1
      refine ⟨s2, ?_, ?_, ?_⟩
      · simp only [cleanupPass, hbkd0, if_pos hrip]
        exact hrec
      · intro q hq bkd hbkd
        rcases List.mem_cons.mp hq with rfl | hq2
        · rw [hbkd0] at hbkd
          obtain rfl : bkd0 = bkd := Option.some.inj hbkd
          obtain ⟨hb, hh, hl⟩ := hpres q hnp
          refine ⟨fun _ => ?_, fun hn => absurd hrip hn⟩
          rw [hb, hh, hl]
          exact ⟨assocLookup_remove_self s.buffer q, assocLookup_remove_self s.hist q,
            assocLookup_remove_self s.last q⟩
        · have hgq : histGet (lruCleanup s p) q ((lruCleanup s p).K - 1)
              = histGet s q (s.K - 1) := by
            simp [histGet, lruCleanup, assocLookup_remove_ne s.hist p q (hner q hq2)]
          have hmq := hmain q hq2 bkd (by rw [hgq]; exact hbkd)
          have hb1 : assocLookup (lruCleanup s p).buffer q = assocLookup s.buffer q :=
            assocLookup_remove_ne s.buffer p q (hner q hq2)
          have hh1 : assocLookup (lruCleanup s p).hist q = assocLookup s.hist q :=
            assocLookup_remove_ne s.hist p q (hner q hq2)
          have hl1 : assocLookup (lruCleanup s p).last q = assocLookup s.last q :=
            assocLookup_remove_ne s.last p q (hner q hq2)
          refine ⟨fun hgt => (hmq.1 hgt), fun hn => ?_⟩
          obtain ⟨hb2, hh2, hl2⟩ := hmq.2 hn
          exact ⟨by rw [hb2, hb1], by rw [hh2, hh1], by rw [hl2, hl1]⟩
      · intro q hq
        have hq1 : q ∉ rest := fun hx => hq (List.mem_cons_of_mem p hx)
        have hqp : q ≠ p := fun he => hq (he ▸ List.mem_cons_self p rest)
        obtain ⟨hb, hh, hl⟩ := hpres q hq1
        exact ⟨by rw [hb]; exact assocLookup_remove_ne s.buffer p q hqp,
          by rw [hh]; exact assocLookup_remove_ne s.hist p q hqp,
          by rw [hl]; exact assocLookup_remove_ne s.last p q hqp⟩
    · have hdom1 : ∀ q ∈ rest, (histGet s q (s.K - 1)).isSome :=
        fun q hq => hdom q (List.mem_cons_of_mem p hq)
      obtain ⟨s2, hrec, hmain, hpres⟩ := ih s (List.nodup_cons.mp hnodup).2 hdom1
      refine ⟨s2, ?_, ?_, ?_⟩
      · simp only [cleanupPass, hbkd0, if_neg hrip]
        exact hrec
      · intro q hq bkd hbkd
        rcases List.mem_cons.mp hq with rfl | hq2
        · rw [hbkd0] at hbkd
          obtain rfl : bkd0 = bkd := Option.some.inj hbkd
          exact ⟨fun hgt => absurd hgt hrip, fun _ => hpres q hnp⟩
        · exact hmain q hq2 bkd hbkd
      · intro q hq
        exact hpres q (fun hx => hq (List.mem_cons_of_mem p hx))

/-- C5 (amended): one pass of the cleanup sweeper over the resident keys
(`order`, any duplicate-free enumeration of the buffer) deletes the buffer
entry, HIST and LAST of exactly those keys whose raw stored timestamp
`HIST(p, K−1)` exceeds RIP — the code's `backward_K_Distance` is
`HIST.get(page, K-1)` itself, with no subtraction from the sweep time — and
leaves every other key's entries untouched. -/
theorem lruk_cleanup_pass_exact (s : LruKState) (order : List String)
    (horder : order.Perm (s.buffer.map Prod.fst))
    (hnodup : order.Nodup)
    (hdom : ∀ p ∈ order, (histGet s p (s.K - 1)).isSome) :
    ∃ s2, cleanupPass s order = some s2 ∧
      (∀ p ∈ order, ∀ bkd, histGet s p (s.K - 1) = some bkd →
        (s.RIP < bkd →
          assocLookup s2.buffer p = none ∧ assocLookup s2.hist p = none ∧
          assocLookup s2.last p = none) ∧
        (¬ s.RIP < bkd →
          assocLookup s2.buffer p = assocLookup s.buffer p ∧
          assocLookup s2.hist p = assocLookup s.hist p ∧
          assocLookup s2.last p = assocLookup s.last p)) ∧
      (∀ q, q ∉ order →
        assocLookup s2.buffer q = assocLookup s.buffer q ∧
        assocLookup s2.hist q = assocLookup s.hist q ∧
        assocLookup s2.last q = assocLookup s.last q) ∧
      (∀ p, (assocLookup s.buffer p).isSome → p ∈ order) := by
  obtain ⟨s2, hrec, hmain, hpres⟩ := cleanupPass_spec order s hnodup hdom
  refine ⟨s2, hrec, hmain, hpres, ?_⟩
  intro p hp
  exact horder.mem_iff.mpr ((assocLookup_isSome_iff s.buffer p).mp hp)

/-- C5 witness: two residents, K = 2, RIP = 100; "a" has HIST[1] = 150 >
RIP and is purged, "b" has HIST[1] = 50 ≤ RIP and is kept. -/
theorem lruk_cleanup_pass_exact_witness :
    ∃ s2, cleanupPass { K := 2, CRP := 0, RIP := 100, Cap := 5, buffer := [("a", 1), ("b", 2)], hist := [("a", [200, 150]), ("b", [60, 50])], last := [("a", 200), ("b", 60)] } ["a", "b"] = some s2 ∧
      (∀ p ∈ ["a", "b"], ∀ bkd, histGet { K := 2, CRP := 0, RIP := 100, Cap := 5, buffer := [("a", 1), ("b", 2)], hist := [("a", [200, 150]), ("b", [60, 50])], last := [("a", 200), ("b", 60)] } p (2 - 1) = some bkd →
        ((100 : Int) < bkd →
          assocLookup s2.buffer p = none ∧ assocLookup s2.hist p = none ∧
          assocLookup s2.last p = none) ∧
        (¬ (100 : Int) < bkd →
          assocLookup s2.buffer p = assocLookup [("a", (1 : Nat)), ("b", 2)] p ∧
          assocLookup s2.hist p = assocLookup [("a", [(200 : Int), 150]), ("b", [60, 50])] p ∧
          assocLookup s2.last p = assocLookup [("a", (200 : Int)), ("b", 60)] p)) ∧
      (∀ q, q ∉ ["a", "b"] →
        assocLookup s2.buffer q = assocLookup [("a", (1 : Nat)), ("b", 2)] q ∧
        assocLookup s2.hist q = assocLookup [("a", [(200 : Int), 150]), ("b", [60, 50])] q ∧
        assocLookup s2.last q = assocLookup [("a", (200 : Int)), ("b", 60)] q) ∧
      (∀ p, (assocLookup [("a", (1 : Nat)), ("b", 2)] p).isSome → p ∈ ["a", "b"]) :=
  lruk_cleanup_pass_exact
    { K := 2, CRP := 0, RIP := 100, Cap := 5, buffer := [("a", 1), ("b", 2)], hist := [("a", [200, 150]), ("b", [60, 50])], last := [("a", 200), ("b", 60)] }
    ["a", "b"] (by decide) (by decide) (by decide)

/-! ## 2Q and O(1)-LFU claims -/

/-- C7: the miss half of the claim fails on the code: `Insert` on any key
absent from the page buffer executes `return page.data, false` on the nil
`page` pointer produced by the failed lookup, so EVERY miss panics instead
of returning `was_present = false`. -/
theorem twoq_insert_miss_panics (s : TwoQState) (key : String) (value : Nat)
    (hmiss : assocLookup s.pageBuffer key = none) :
    twoQInsert s key value = none := by
  simp only [twoQInsert, hmiss]

/-- C7 witness: the first insertion into a freshly initialized cap-3 cache
(the very call the package's own test expects to return present=false). -/
theorem twoq_insert_miss_panics_witness :
    assocLookup (newTwoQ 3 1 1).pageBuffer "key1" = none ∧
    twoQInsert (newTwoQ 3 1 1) "key1" 1 = none :=
  ⟨rfl, twoq_insert_miss_panics (newTwoQ 3 1 1) "key1" 1 rfl⟩

/-- C6: the claimed scenario dies at its first step: `insert(k1)` on the
fresh cap-3, K_in = K_out = 1 cache is a cold miss, and every cold miss
panics on the nil page pointer (see the `Insert` model); the
ghost-promotion branch is unreachable because a key in `A1out` is never in
the page buffer and therefore takes the same miss path. -/
theorem twoq_scenario_insert_panics :
    twoQInsert (newTwoQ 3 1 1) "k1" 1 = none := rfl

/-- C8: the claimed LFU scenario dies at its first step: `insert(k1, v1)`
on the fresh size-2 cache finds `freq_Head.next == nil` and calls
`GetNewNode(1, freq_Head, nil)`, which assigns `next.prev` through the nil
pointer and panics. -/
theorem lfu_scenario_insert_panics :
    lfuInsert (newLfu 2) "k1" 1 = none := rfl

/-- C9: `Access` on a key absent from the index panics
(`panic("No such key")`) instead of returning a benign absence value. -/
theorem lfu_access_missing_panics (s : LfuState) (key : String)
    (hmiss : assocLookup s.bykey key = none) :
    lfuAccess s key = none := by
  simp only [lfuAccess, hmiss]

/-- C9 witness: accessing "nonexistent" on a fresh size-10 cache. -/
theorem lfu_access_missing_panics_witness :
    assocLookup (newLfu 10).bykey "nonexistent" = none ∧
    lfuAccess (newLfu 10) "nonexistent" = none :=
  ⟨rfl, lfu_access_missing_panics (newLfu 10) "nonexistent" rfl⟩
